import Mathlib

/-!
Shallow embedding of `BacktestEngine.run_backtest`
(src/backtesting/engine.py) of the project_dashboard repository.

Numbers are modelled as exact rationals (`ℚ`): the Python floats are read as
the rational values their literals denote.  A pandas `NaN` cell is modelled as
`Option.none`; comparisons against `NaN` follow the IEEE semantics pandas
uses (`NaN > 0` is false, `NaN != 0` is true), which is spelled out at each
place it matters.  Calendar dates are modelled as natural-number ordinals:
the engine only uses them as an index and for string formatting, so a trade
record here carries the entry/exit *indices* instead of formatted dates.
-/

/-- Input bundle `StockData` (declared in `contracts/schema.py`, consumed
read-only by the engine): parallel series of dates, closes, MACD line,
MACD signal line and volumes. -/
structure StockData where
  dates : List ℕ
  closes : List ℚ
  macd : List ℚ
  macd_signal : List ℚ
  volumes : List ℚ
deriving DecidableEq

/-- `StrategyConfig` as echoed into the output (engine.py lines 17-23). -/
structure StrategyConfig where
  strategy_name : String
  initial_capital : ℚ
  commission : ℚ
  trade_on_close : Bool
  position_type : String
deriving DecidableEq

/-- One ledger entry (`TradeRecord`).  `entryIdx`/`exitIdx` are the period
indices whose dates the Python code formats into `entry_date`/`exit_date`. -/
structure TradeRecord where
  entryIdx : ℕ
  exitIdx : ℕ
  entry_price : ℚ
  exit_price : ℚ
  profit_loss : ℚ
  profit_loss_pct : ℚ
  duration_days : ℕ
  trade_type : String
deriving DecidableEq

/-- Number of periods: `len(df)`, the length of the close series. -/
def numPeriods (d : StockData) : ℕ := d.closes.length

/-- `df['Close']` read at an index (total, like a pandas Series lookup). -/
def closeAt (d : StockData) (t : ℕ) : ℚ := d.closes.getD t 0

/-- `df['Target'] = np.where(df['MACD'] > df['Signal'], 1, 0)`. -/
def targetAt (d : StockData) (t : ℕ) : ℚ :=
  if d.macd_signal.getD t 0 < d.macd.getD t 0 then 1 else 0

/-- `df['Position'] = df['Target'].shift(1).fillna(0)`. -/
def positionAt (d : StockData) (t : ℕ) : ℚ :=
  if t = 0 then 0 else targetAt d (t - 1)

/-- `df['Returns'] = df['Close'].pct_change()`: `NaN` (`none`) at index 0. -/
def returnsAt (d : StockData) (t : ℕ) : Option ℚ :=
  if t = 0 then none else some (closeAt d t / closeAt d (t - 1) - 1)

/-- `df['Position'] * df['Returns']` (a finite position times `NaN` is `NaN`). -/
def rawStrategyReturnsAt (d : StockData) (t : ℕ) : Option ℚ :=
  (returnsAt d t).map (fun r => positionAt d t * r)

/-- `df['Position_Change'] = df['Position'].diff().abs()`: `NaN` at index 0. -/
def positionChangeAt (d : StockData) (t : ℕ) : Option ℚ :=
  if t = 0 then none else some |positionAt d t - positionAt d (t - 1)|

/-- `df['Commission_Cost'] = df['Position_Change'] * commission`. -/
def commissionCostAt (c : ℚ) (d : StockData) (t : ℕ) : Option ℚ :=
  (positionChangeAt d t).map (fun p => p * c)

/-- `df['Strategy_Returns'] = df['Position']*df['Returns'] - df['Commission_Cost']`
(`NaN` minus anything, or anything minus `NaN`, is `NaN`). -/
def strategyReturnsAt (c : ℚ) (d : StockData) (t : ℕ) : Option ℚ :=
  match rawStrategyReturnsAt d t, commissionCostAt c d t with
  | some a, some b => some (a - b)
  | _, _ => none

/-- `.fillna(0)` on a single cell. -/
def fillna0 (o : Option ℚ) : ℚ := o.getD 0

/-- The `Target` column as a list. -/
def targetList (d : StockData) : List ℚ :=
  (List.range (numPeriods d)).map (targetAt d)

/-- The `Position` column as a list. -/
def positionList (d : StockData) : List ℚ :=
  (List.range (numPeriods d)).map (positionAt d)

/-- The `Strategy_Returns` column as a list. -/
def strategyReturnsList (c : ℚ) (d : StockData) : List (Option ℚ) :=
  (List.range (numPeriods d)).map (strategyReturnsAt c d)

/-- `Series.cumprod()` as a list transform: entry `t` is the product of the
first `t+1` entries of the input. -/
def cumprod (xs : List ℚ) : List ℚ :=
  (List.scanl (fun a b => a * b) 1 xs).tail

/-- `equity_curve = (initial_capital * (1 + Strategy_Returns.fillna(0)).cumprod()).tolist()`. -/
def equityCurve (cap c : ℚ) (d : StockData) : List ℚ :=
  (cumprod ((strategyReturnsList c d).map (fun o => 1 + fillna0 o))).map (fun x => cap * x)

/-- `final_equity = equity_curve[-1]` (defined for nonempty input; the empty
case is the `IndexError` modelled in `run_backtest`). -/
def finalEquity (cap c : ℚ) (d : StockData) : ℚ :=
  (equityCurve cap c d).getLastD 0

/-- `.expanding(min_periods=1).max()`: running maxima of a series. -/
def expandingMax : List ℚ → List ℚ
  | [] => []
  | x :: xs => List.scanl max x xs

/-- `peak = (initial_capital * cumulative_returns).expanding(min_periods=1).max()` —
numerically the running maximum of the equity curve. -/
def peakList (cap c : ℚ) (d : StockData) : List ℚ :=
  expandingMax (equityCurve cap c d)

/-- `drawdown = ((initial_capital * cumulative_returns) / peak - 1) * 100`. -/
def drawdownCurve (cap c : ℚ) (d : StockData) : List ℚ :=
  List.zipWith (fun e p => (e / p - 1) * 100) (equityCurve cap c d) (peakList cap c d)

/-- `Series.min()` of a nonempty series (0 on the empty list, which the
engine never reaches: empty input dies earlier with an `IndexError`). -/
def listMin : List ℚ → ℚ
  | [] => 0
  | x :: xs => xs.foldl min x

/-- `max_drawdown = drawdown.min()`. -/
def maxDrawdown (cap c : ℚ) (d : StockData) : ℚ :=
  listMin (drawdownCurve cap c d)

/-- `winning_trades = len(df[df['Strategy_Returns'] > 0])`.
`NaN > 0` is false, so the `NaN` first period is never counted here. -/
def winningCount (c : ℚ) (d : StockData) : ℕ :=
  (strategyReturnsList c d).countP (fun o =>
    match o with
    | some x => decide (0 < x)
    | none => false)

/-- `total_active_trades = len(df[df['Strategy_Returns'] != 0])`.
Pandas evaluates `NaN != 0` elementwise as true, so the `NaN` first period
IS counted by this filter. -/
def activeCount (c : ℚ) (d : StockData) : ℕ :=
  (strategyReturnsList c d).countP (fun o =>
    match o with
    | some x => decide (x ≠ 0)
    | none => true)

/-- `win_rate = winning/total_active*100 if total_active > 0 else 0`. -/
def winRate (c : ℚ) (d : StockData) : ℚ :=
  if 0 < activeCount c d then (winningCount c d : ℚ) / (activeCount c d : ℚ) * 100 else 0

/-- Builds the `TradeRecord` exactly as the Python loop body does:
`profit_loss = (exit_price - entry_price) - entry_price*commission*2`,
`profit_loss_pct = profit_loss/entry_price*100`, `duration = exit - entry`. -/
def mkTrade (c : ℚ) (eIdx xIdx : ℕ) (ePrice xPrice : ℚ) : TradeRecord :=
  { entryIdx := eIdx
    exitIdx := xIdx
    entry_price := ePrice
    exit_price := xPrice
    profit_loss := (xPrice - ePrice) - ePrice * c * 2
    profit_loss_pct := ((xPrice - ePrice) - ePrice * c * 2) / ePrice * 100
    duration_days := xIdx - eIdx
    trade_type := "LONG" }

/-- Mutable state of the trade-history loop: `position_open`, `entry_idx`,
`entry_price` and the `trades` accumulator. -/
structure ScanState where
  position_open : Bool
  entry_idx : ℕ
  entry_price : ℚ
  trades : List TradeRecord
deriving DecidableEq

/-- The `for idx in range(len(df))` loop of the trade-history section:
open on `Target == 1` while flat, close (appending a record) on
`Target == 0` while open, otherwise do nothing. -/
def tradeScan (c : ℚ) (d : StockData) : List ℕ → ScanState → ScanState
  | [], st => st
  | idx :: rest, st =>
    if targetAt d idx = 1 ∧ st.position_open = false then
      tradeScan c d rest
        { st with position_open := true, entry_idx := idx, entry_price := closeAt d idx }
    else if targetAt d idx = 0 ∧ st.position_open = true then
      tradeScan c d rest
        { st with position_open := false,
                  trades := st.trades ++ [mkTrade c st.entry_idx idx st.entry_price (closeAt d idx)] }
    else
      tradeScan c d rest st

/-- The final trade ledger: run the scan over all indices, then force-close
any still-open position at the last period's index and price. -/
def tradesOf (c : ℚ) (d : StockData) : List TradeRecord :=
  let st := tradeScan c d (List.range (numPeriods d)) ⟨false, 0, 0, []⟩
  if st.position_open then
    st.trades ++
      [mkTrade c st.entry_idx (numPeriods d - 1) st.entry_price (closeAt d (numPeriods d - 1))]
  else
    st.trades

/-- The three DataFrame columns and the index must have equal lengths, or
the `pd.DataFrame` constructor raises. -/
def aligned (d : StockData) : Prop :=
  d.closes.length = d.macd.length ∧ d.closes.length = d.macd_signal.length ∧
    d.closes.length = d.dates.length

instance (d : StockData) : Decidable (aligned d) := by
  unfold aligned; infer_instance

/-- How a `run_backtest` call can fail.  `valueError` is the pandas
length-mismatch `ValueError` raised by the `pd.DataFrame` constructor;
`indexError` is the `IndexError` raised by `equity_curve[-1]` on empty
input.  `invalidInputError` and `insufficientDataError` are the dedicated
error kinds named by the specification; they are modelled here only so the
spec's claim can be stated, and are never produced by the code. -/
inductive EngineError
  | valueError
  | indexError
  | invalidInputError
  | insufficientDataError
deriving DecidableEq

/-- The slice of `BacktestMetrics` the verified claims refer to.  The
remaining scalar statistics of the Python record (volatility, Sharpe,
alpha/beta, information ratio, confidence score, monthly sums, market
mirrors, signal index lists, echoes of the raw inputs) are not mentioned
by any claim and are omitted from the embedding. -/
structure BacktestMetrics where
  config : StrategyConfig
  initial_capital : ℚ
  final_equity : ℚ
  total_trades : ℕ
  win_rate : ℚ
  max_drawdown : ℚ
  equity_curve : List ℚ
  drawdown_curve : List ℚ
  returns : List ℚ
  trades : List TradeRecord
deriving DecidableEq

/-- `BacktestEngine.run_backtest`.  The capital and commission rate are the
engine's own constants (`initial_capital = 1000000.0`, `commission = 0.002`);
the caller supplies only the data.  A length-mismatched input fails in the
`pd.DataFrame` constructor; an empty input fails at `equity_curve[-1]`. -/
def run_backtest (d : StockData) : Except EngineError BacktestMetrics :=
  if aligned d then
    if numPeriods d = 0 then .error .indexError
    else
      .ok
        { config :=
            { strategy_name := "MLStrategy"
              initial_capital := 1000000
              commission := 0.002
              trade_on_close := true
              position_type := "Long-only" }
          initial_capital := 1000000
          final_equity := finalEquity 1000000 0.002 d
          total_trades := (tradesOf 0.002 d).length
          win_rate := winRate 0.002 d
          max_drawdown := maxDrawdown 1000000 0.002 d
          equity_curve := equityCurve 1000000 0.002 d
          drawdown_curve := drawdownCurve 1000000 0.002 d
          returns := (strategyReturnsList 0.002 d).map fillna0
          trades := tradesOf 0.002 d }
  else .error .valueError

/-! ### Helper lemmas -/

lemma getD_range_map {α : Type} (f : ℕ → α) (z : α) {n t : ℕ} (h : t < n) :
    ((List.range n).map f).getD t z = f t := by
  rw [List.getD_eq_getElem?_getD, List.getElem?_map, List.getElem?_range h]
  rfl

lemma scanl_mul_getD :
    ∀ (xs : List ℚ) (b : ℚ) (t : ℕ), t ≤ xs.length →
      (List.scanl (fun a x => a * x) b xs).getD t 0 =
        b * ∏ i ∈ Finset.range t, xs.getD i 1
  | [], b, 0, _ => by simp
  | [], _, t + 1, h => by simp at h
  | x :: xs, b, 0, _ => by simp [List.scanl_cons]
  | x :: xs, b, t + 1, h => by
    rw [List.scanl_cons]
    have hstep : ([b] ++ List.scanl (fun a x => a * x) (b * x) xs).getD (t + 1) 0 =
        (List.scanl (fun a x => a * x) (b * x) xs).getD t 0 := rfl
    rw [hstep, scanl_mul_getD xs (b * x) t (by simpa using h),
      Finset.prod_range_succ' (fun i => (x :: xs).getD i 1) t]
    simp only [List.getD_cons_succ, List.getD_cons_zero]
    ring

lemma cumprod_getD (xs : List ℚ) {t : ℕ} (h : t < xs.length) :
    (cumprod xs).getD t 0 = ∏ i ∈ Finset.range (t + 1), xs.getD i 1 := by
  cases xs with
  | nil => simp at h
  | cons x xs =>
    show ((List.scanl (fun a x => a * x) 1 (x :: xs)).tail).getD t 0 = _
    rw [List.scanl_cons]
    have htail : ([(1 : ℚ)] ++ List.scanl (fun a x => a * x) (1 * x) xs).tail =
        List.scanl (fun a x => a * x) (1 * x) xs := rfl
    rw [htail, scanl_mul_getD xs (1 * x) t (by simpa using Nat.lt_succ_iff.mp h),
      Finset.prod_range_succ' (fun i => (x :: xs).getD i 1) t]
    simp only [List.getD_cons_succ, List.getD_cons_zero]
    ring

lemma length_cumprod (xs : List ℚ) : (cumprod xs).length = xs.length := by
  simp [cumprod, List.length_tail, List.length_scanl]

lemma length_strategyReturnsList (c : ℚ) (d : StockData) :
    (strategyReturnsList c d).length = numPeriods d := by
  simp [strategyReturnsList]

lemma length_equityCurve (cap c : ℚ) (d : StockData) :
    (equityCurve cap c d).length = numPeriods d := by
  simp [equityCurve, length_cumprod, length_strategyReturnsList]

lemma equityCurve_getD (cap c : ℚ) (d : StockData) {t : ℕ} (h : t < numPeriods d) :
    (equityCurve cap c d).getD t 0 =
      cap * ∏ i ∈ Finset.range (t + 1), (1 + fillna0 (strategyReturnsAt c d i)) := by
  have hys : (strategyReturnsList c d).map (fun o => 1 + fillna0 o) =
      (List.range (numPeriods d)).map (fun i => 1 + fillna0 (strategyReturnsAt c d i)) := by
    rw [strategyReturnsList, List.map_map]
    rfl
  have hlen : t < (cumprod ((strategyReturnsList c d).map (fun o => 1 + fillna0 o))).length := by
    rw [length_cumprod, List.length_map, length_strategyReturnsList]
    exact h
  unfold equityCurve
  rw [List.getD_eq_getElem?_getD, List.getElem?_map, List.getElem?_eq_getElem hlen]
  simp only [Option.map_some', Option.getD_some]
  have hlen2 : t < ((strategyReturnsList c d).map (fun o => 1 + fillna0 o)).length := by
    rw [List.length_map, length_strategyReturnsList]; exact h
  rw [← List.getD_eq_getElem _ 0 hlen, cumprod_getD _ hlen2, hys]
  congr 1
  refine Finset.prod_congr rfl (fun i hi => ?_)
  exact getD_range_map _ _ (lt_of_lt_of_le (Finset.mem_range.mp hi) h)

lemma getLastD_eq_getD : ∀ (l : List ℚ), l ≠ [] → l.getLastD 0 = l.getD (l.length - 1) 0
  | [_], _ => rfl
  | x :: y :: tl, _ => by
    rw [List.getLastD_eq_getLast?, List.getLast?_cons_cons, ← List.getLastD_eq_getLast?,
      getLastD_eq_getD (y :: tl) (by simp)]
    simp [List.getD_cons_succ]

/-! ### Concrete inputs used by witnesses and counterexamples -/

/-- The worked scenario of the spec: `Close=[100,100,110,110,90]`,
`MACD=[1,1,2,-1,-1]`, `Signal=[0,0,1,0,0]`. -/
def d8 : StockData :=
  ⟨[0, 1, 2, 3, 4], [100, 100, 110, 110, 90], [1, 1, 2, -1, -1], [0, 0, 1, 0, 0],
    [0, 0, 0, 0, 0]⟩

/-- A two-period input with one profitable long period. -/
def d5 : StockData := ⟨[0, 1], [100, 110], [1, 1], [0, 0], [0, 0]⟩

/-- A two-period input whose price halves while long. -/
def d7 : StockData := ⟨[0, 1], [100, 50], [1, 1], [0, 0], [0, 0]⟩

/-- An always-long input (MACD above its signal line at every period). -/
def d9 : StockData := ⟨[0, 1, 2], [100, 110, 121], [1, 1, 1], [0, 0, 0], [0, 0, 0]⟩

/-- A length-misaligned input: one close but empty MACD series. -/
def d6 : StockData := ⟨[1], [1], [], [], []⟩

/-- The empty (but aligned) input. -/
def d6e : StockData := ⟨[], [], [], [], []⟩

/-- A minimal aligned one-period input that produces no trades. -/
def d10 : StockData := ⟨[0], [100], [0], [0], [0]⟩

/-! ### C1 -/

/-- C1: for aligned input the translator produces exactly
`Target[t] = 1 if MACD[t] > Signal[t] else 0`, `Position[t] = Target[t-1]`
for `t > 0` with `Position[0] = 0`, and for `t ≥ 1`
`NetStrategyReturn[t] = Position[t]*(Close[t]/Close[t-1] - 1)
  - |Position[t] - Position[t-1]| * commissionRate`. -/
theorem C1_translator (d : StockData) (c : ℚ) (h : aligned d) :
    ∀ t, t < numPeriods d →
      (targetList d).getD t 0 =
          (if d.macd.getD t 0 > d.macd_signal.getD t 0 then 1 else 0) ∧
      (positionList d).getD t 0 =
          (if t = 0 then 0 else (targetList d).getD (t - 1) 0) ∧
      (1 ≤ t →
        (strategyReturnsList c d).getD t none =
          some ((positionList d).getD t 0 * (closeAt d t / closeAt d (t - 1) - 1) -
            |(positionList d).getD t 0 - (positionList d).getD (t - 1) 0| * c)) := by
  intro t ht
  have ht1 : t - 1 < numPeriods d := lt_of_le_of_lt (Nat.pred_le t) ht
  refine ⟨?_, ?_, ?_⟩
  · rw [targetList, getD_range_map _ _ ht]; rfl
  · rw [positionList, getD_range_map _ _ ht]
    by_cases h0 : t = 0
    · simp [positionAt, h0]
    · simp only [positionAt, h0, if_false]
      rw [targetList, getD_range_map _ _ ht1]
  · intro h1
    have h0 : t ≠ 0 := by omega
    rw [strategyReturnsList, getD_range_map _ _ ht, positionList, getD_range_map _ _ ht,
      getD_range_map _ _ ht1]
    simp [strategyReturnsAt, rawStrategyReturnsAt, commissionCostAt, positionChangeAt,
      returnsAt, h0]

/-- Witness for C1 at the concrete scenario input, period 2. -/
theorem C1_translator_witness :
    aligned d8 ∧ 2 < numPeriods d8 ∧ 1 ≤ 2 ∧
      (targetList d8).getD 2 0 =
          (if d8.macd.getD 2 0 > d8.macd_signal.getD 2 0 then 1 else 0) ∧
      (positionList d8).getD 2 0 = (if 2 = 0 then 0 else (targetList d8).getD 1 0) ∧
      (strategyReturnsList 0.002 d8).getD 2 none =
          some ((positionList d8).getD 2 0 * (closeAt d8 2 / closeAt d8 1 - 1) -
            |(positionList d8).getD 2 0 - (positionList d8).getD 1 0| * 0.002) := by
  have h : aligned d8 := ⟨rfl, rfl, rfl⟩
  have h2 : 2 < numPeriods d8 := by decide
  obtain ⟨p1, p2, p3⟩ := C1_translator d8 0.002 h 2 h2
  exact ⟨h, h2, by decide, p1, p2, p3 (by decide)⟩

/-! ### C2 -/

/-- C2: for nonempty aligned input the reported equity curve satisfies
`Equity[t] = capital * Π_{i ≤ t} (1 + NetStrategyReturn[i])` with the leading
undefined return treated as zero, and the final equity is the last element
of that curve. -/
theorem C2_equity (cap c : ℚ) (d : StockData) (h : aligned d) (hn : 0 < numPeriods d) :
    (∀ t, t < numPeriods d →
      (equityCurve cap c d).getD t 0 =
        cap * ∏ i ∈ Finset.range (t + 1), (1 + fillna0 (strategyReturnsAt c d i))) ∧
    fillna0 (strategyReturnsAt c d 0) = 0 ∧
    finalEquity cap c d = (equityCurve cap c d).getD (numPeriods d - 1) 0 ∧
    finalEquity cap c d =
      cap * ∏ i ∈ Finset.range (numPeriods d), (1 + fillna0 (strategyReturnsAt c d i)) := by
  have hne : equityCurve cap c d ≠ [] := by
    rw [← List.length_pos, length_equityCurve]; exact hn
  have hlast : finalEquity cap c d = (equityCurve cap c d).getD (numPeriods d - 1) 0 := by
    rw [finalEquity, getLastD_eq_getD _ hne, length_equityCurve]
  refine ⟨fun t ht => equityCurve_getD cap c d ht, rfl, hlast, ?_⟩
  rw [hlast, equityCurve_getD cap c d (by omega), Nat.sub_add_cancel hn]

/-- Witness for C2 at the concrete scenario input. -/
theorem C2_equity_witness :
    aligned d8 ∧ 0 < numPeriods d8 ∧
      (∀ t, t < numPeriods d8 →
        (equityCurve 1000000 0.002 d8).getD t 0 =
          1000000 * ∏ i ∈ Finset.range (t + 1), (1 + fillna0 (strategyReturnsAt 0.002 d8 i))) ∧
      finalEquity 1000000 0.002 d8 =
        1000000 * ∏ i ∈ Finset.range (numPeriods d8), (1 + fillna0 (strategyReturnsAt 0.002 d8 i)) := by
  have h : aligned d8 := ⟨rfl, rfl, rfl⟩
  have hn : 0 < numPeriods d8 := by decide
  obtain ⟨p1, _, _, p4⟩ := C2_equity 1000000 0.002 d8 h hn
  exact ⟨h, hn, p1, p4⟩

/-! ### C3: the trade-ledger scan -/

lemma targetAt_cases (d : StockData) (j : ℕ) : targetAt d j = 0 ∨ targetAt d j = 1 := by
  unfold targetAt; split
  · right; rfl
  · left; rfl

/-- What the claim asserts about every record in the ledger: a long trade,
entered at a `Target = 1` period at that period's close, held through
`Target = 1` periods only, exited at the next `Target = 0` period (or at the
final period for a forced close), with round-trip commission charged on the
entry price. -/
def GoodTrade (d : StockData) (c : ℚ) (n : ℕ) (tr : TradeRecord) : Prop :=
  tr.trade_type = "LONG" ∧
  tr.entryIdx ≤ tr.exitIdx ∧ tr.exitIdx < n ∧
  tr.entry_price = closeAt d tr.entryIdx ∧
  tr.exit_price = closeAt d tr.exitIdx ∧
  tr.profit_loss = (tr.exit_price - tr.entry_price) - tr.entry_price * c * 2 ∧
  tr.profit_loss_pct = tr.profit_loss / tr.entry_price * 100 ∧
  tr.duration_days = tr.exitIdx - tr.entryIdx ∧
  targetAt d tr.entryIdx = 1 ∧
  (targetAt d tr.exitIdx = 0 ∨ tr.exitIdx = n - 1) ∧
  (∀ j, tr.entryIdx ≤ j → j < tr.exitIdx → targetAt d j = 1)

/-- Loop invariant of the trade-history scan after all indices below `a`
have been processed. -/
def ScanInv (d : StockData) (c : ℚ) (n a : ℕ) (st : ScanState) : Prop :=
  (∀ tr ∈ st.trades, GoodTrade d c n tr) ∧
  List.Chain' (fun x y => x.exitIdx < y.entryIdx) st.trades ∧
  (∀ tr ∈ st.trades, tr.exitIdx < a) ∧
  (st.position_open = true →
    targetAt d st.entry_idx = 1 ∧ st.entry_price = closeAt d st.entry_idx ∧
    st.entry_idx < a ∧ (∀ tr ∈ st.trades, tr.exitIdx < st.entry_idx) ∧
    (∀ j, st.entry_idx ≤ j → j < a → targetAt d j = 1)) ∧
  (∀ j, j < n → targetAt d j = 1 →
    a ≤ j ∨ (∃ tr ∈ st.trades, tr.entryIdx ≤ j ∧ j ≤ tr.exitIdx) ∨
      (st.position_open = true ∧ st.entry_idx ≤ j))

lemma tradeScan_spec (c : ℚ) (d : StockData) (n : ℕ) :
    ∀ (k a : ℕ) (st : ScanState), a + k = n → ScanInv d c n a st →
      ScanInv d c n n (tradeScan c d (List.range' a k) st)
  | 0, a, st, hak, hinv => by
    have ha : a = n := by omega
    subst ha
    simpa [tradeScan] using hinv
  | k + 1, a, st, hak, hinv => by
    obtain ⟨hgood, hchain, hex, hopen, hcover⟩ := hinv
    have han : a < n := by omega
    rw [List.range'_succ]
    by_cases hb1 : targetAt d a = 1 ∧ st.position_open = false
    · rw [show tradeScan c d (a :: List.range' (a + 1) k) st =
          tradeScan c d (List.range' (a + 1) k)
            { st with position_open := true, entry_idx := a, entry_price := closeAt d a } by
        simp only [tradeScan]; rw [if_pos hb1]]
      refine tradeScan_spec c d n k (a + 1) _ (by omega) ⟨hgood, hchain, ?_, ?_, ?_⟩
      · exact fun tr htr => Nat.lt_succ_of_lt (hex tr htr)
      · intro _
        refine ⟨hb1.1, rfl, Nat.lt_succ_self a, hex, ?_⟩
        intro j hj1 hj2
        have hj1' : a ≤ j := hj1
        have hj2' : j < a + 1 := hj2
        have : j = a := by omega
        subst this; exact hb1.1
      · intro j hj ht
        rcases hcover j hj ht with hc | hc | hc
        · rcases Nat.eq_or_lt_of_le hc with rfl | hlt
          · right; right; exact ⟨rfl, le_refl _⟩
          · left; omega
        · right; left; exact hc
        · exact absurd hc.1 (by simp [hb1.2])
    · by_cases hb2 : targetAt d a = 0 ∧ st.position_open = true
      · obtain ⟨ht1, hep, hea, hexlt, hint⟩ := hopen hb2.2
        set tr' := mkTrade c st.entry_idx a st.entry_price (closeAt d a) with htr'
        rw [show tradeScan c d (a :: List.range' (a + 1) k) st =
            tradeScan c d (List.range' (a + 1) k)
              { st with position_open := false, trades := st.trades ++ [tr'] } by
          simp only [tradeScan]; rw [if_neg hb1, if_pos hb2]]
        have hgood' : GoodTrade d c n tr' := by
          refine ⟨rfl, le_of_lt hea, han, hep, rfl, rfl, rfl, rfl, ht1, Or.inl hb2.1, ?_⟩
          intro j hj1 hj2
          exact hint j hj1 (lt_of_lt_of_le hj2 (le_refl a))
        refine tradeScan_spec c d n k (a + 1) _ (by omega) ⟨?_, ?_, ?_, ?_, ?_⟩
        · intro tr htr
          rcases List.mem_append.mp htr with h' | h'
          · exact hgood tr h'
          · rw [List.mem_singleton.mp h']; exact hgood'
        · rw [List.chain'_append]
          refine ⟨hchain, List.chain'_singleton tr', ?_⟩
          intro x hx y hy
          have hxm : x ∈ st.trades := List.mem_of_mem_getLast? hx
          obtain rfl : tr' = y := by simpa using hy
          exact hexlt x hxm
        · intro tr htr
          rcases List.mem_append.mp htr with h' | h'
          · exact Nat.lt_succ_of_lt (hex tr h')
          · rw [List.mem_singleton.mp h']; exact Nat.lt_succ_self a
        · intro hfalse; simp at hfalse
        · intro j hj ht
          rcases hcover j hj ht with hc | hc | hc
          · rcases Nat.eq_or_lt_of_le hc with rfl | hlt
            · exact absurd ht (by rw [hb2.1]; norm_num)
            · left; omega
          · obtain ⟨tr, htr, h1, h2⟩ := hc
            right; left; exact ⟨tr, List.mem_append.mpr (Or.inl htr), h1, h2⟩
          · by_cases hja : j ≤ a
            · right; left
              refine ⟨tr', List.mem_append.mpr (Or.inr (List.mem_singleton.mpr rfl)), hc.2, hja⟩
            · left; omega
      · rw [show tradeScan c d (a :: List.range' (a + 1) k) st =
            tradeScan c d (List.range' (a + 1) k) st by
          simp only [tradeScan]; rw [if_neg hb1, if_neg hb2]]
        refine tradeScan_spec c d n k (a + 1) _ (by omega) ⟨hgood, hchain, ?_, ?_, ?_⟩
        · exact fun tr htr => Nat.lt_succ_of_lt (hex tr htr)
        · intro hop
          obtain ⟨x1, x2, x3, x4, x5⟩ := hopen hop
          refine ⟨x1, x2, Nat.lt_succ_of_lt x3, x4, ?_⟩
          intro j hj1 hj2
          rcases Nat.lt_succ_iff_lt_or_eq.mp hj2 with h' | rfl
          · exact x5 j hj1 h'
          · rcases targetAt_cases d j with h0 | h1
            · exact absurd ⟨h0, hop⟩ hb2
            · exact h1
        · intro j hj ht
          rcases hcover j hj ht with hc | hc | hc
          · rcases Nat.eq_or_lt_of_le hc with rfl | hlt
            · cases hsto : st.position_open with
              | false => exact absurd ⟨ht, hsto⟩ hb1
              | true =>
                right; right
                exact ⟨rfl, le_of_lt ((hopen hsto).2.2.1)⟩
            · left; omega
          · right; left; exact hc
          · right; right; exact hc

/-- C3: for nonempty input the ledger produced by the left-to-right scan over
`Target` consists solely of well-formed "LONG" trades (entered at a
`Target = 1` period's close, held through `Target = 1` periods, exited at a
`Target = 0` period or force-closed at the final period, with
`PL = (Exit - Entry) - Entry*commission*2`, `PL% = PL/Entry*100` and
`Duration = exitIdx - entryIdx`), the trades never overlap (at most one open
position), and every `Target = 1` period lies inside some recorded trade
(a trade opens at the first long signal while flat). -/
theorem C3_tradeLedger (c : ℚ) (d : StockData) (h : aligned d) (hn : 0 < numPeriods d) :
    (∀ tr ∈ tradesOf c d, GoodTrade d c (numPeriods d) tr) ∧
    List.Chain' (fun x y => x.exitIdx < y.entryIdx) (tradesOf c d) ∧
    (∀ j, j < numPeriods d → targetAt d j = 1 →
      ∃ tr ∈ tradesOf c d, tr.entryIdx ≤ j ∧ j ≤ tr.exitIdx) := by
  have h0 : ScanInv d c (numPeriods d) 0 ⟨false, 0, 0, []⟩ := by
    refine ⟨?_, ?_, ?_, ?_, ?_⟩
    · intro tr htr; simp at htr
    · simp
    · intro tr htr; simp at htr
    · intro hop; simp at hop
    · intro j _ _; left; exact Nat.zero_le j
  have hrun := tradeScan_spec c d (numPeriods d) (numPeriods d) 0 ⟨false, 0, 0, []⟩
    (Nat.zero_add _) h0
  rw [← List.range_eq_range'] at hrun
  set st := tradeScan c d (List.range (numPeriods d)) ⟨false, 0, 0, []⟩ with hst
  obtain ⟨hg, hch, _, hop, hcov⟩ := hrun
  have hrw : tradesOf c d =
      (if st.position_open then
        st.trades ++
          [mkTrade c st.entry_idx (numPeriods d - 1) st.entry_price
            (closeAt d (numPeriods d - 1))]
      else st.trades) := rfl
  cases hpo : st.position_open with
  | false =>
    rw [hrw, hpo, if_neg (by simp)]
    refine ⟨hg, hch, ?_⟩
    intro j hj ht
    rcases hcov j hj ht with hc | hc | hc
    · omega
    · exact hc
    · rw [hpo] at hc; simp at hc
  | true =>
    obtain ⟨ht1, hep, hen, hexlt, hint⟩ := hop hpo
    rw [hrw, hpo, if_pos rfl]
    have hgoodF : GoodTrade d c (numPeriods d)
        (mkTrade c st.entry_idx (numPeriods d - 1) st.entry_price
          (closeAt d (numPeriods d - 1))) := by
      refine ⟨rfl, ?_, ?_, hep, rfl, rfl, rfl, rfl, ht1, Or.inr rfl, ?_⟩
      · show st.entry_idx ≤ numPeriods d - 1
        omega
      · show numPeriods d - 1 < numPeriods d
        omega
      · intro j hj1 hj2
        have hj1' : st.entry_idx ≤ j := hj1
        have hj2' : j < numPeriods d - 1 := hj2
        exact hint j hj1' (by omega)
    refine ⟨?_, ?_, ?_⟩
    · intro tr htr
      rcases List.mem_append.mp htr with h' | h'
      · exact hg tr h'
      · rw [List.mem_singleton.mp h']; exact hgoodF
    · rw [List.chain'_append]
      refine ⟨hch, List.chain'_singleton _, ?_⟩
      intro x hx y hy
      have hxm : x ∈ st.trades := List.mem_of_mem_getLast? hx
      obtain rfl : mkTrade c st.entry_idx (numPeriods d - 1) st.entry_price
          (closeAt d (numPeriods d - 1)) = y := by simpa using hy
      exact hexlt x hxm
    · intro j hj ht
      rcases hcov j hj ht with hc | hc | hc
      · omega
      · obtain ⟨tr, htr, h1, h2⟩ := hc
        exact ⟨tr, List.mem_append.mpr (Or.inl htr), h1, h2⟩
      · refine ⟨mkTrade c st.entry_idx (numPeriods d - 1) st.entry_price
            (closeAt d (numPeriods d - 1)),
          List.mem_append.mpr (Or.inr (List.mem_singleton.mpr rfl)), hc.2, ?_⟩
        show j ≤ numPeriods d - 1
        omega

/-- Witness for C3 at the concrete scenario input. -/
theorem C3_tradeLedger_witness :
    aligned d8 ∧ 0 < numPeriods d8 ∧
      (∀ tr ∈ tradesOf 0.002 d8, GoodTrade d8 0.002 (numPeriods d8) tr) ∧
      List.Chain' (fun x y => x.exitIdx < y.entryIdx) (tradesOf 0.002 d8) ∧
      (∀ j, j < numPeriods d8 → targetAt d8 j = 1 →
        ∃ tr ∈ tradesOf 0.002 d8, tr.entryIdx ≤ j ∧ j ≤ tr.exitIdx) := by
  have h : aligned d8 := ⟨rfl, rfl, rfl⟩
  have hn : 0 < numPeriods d8 := by decide
  exact ⟨h, hn, C3_tradeLedger 0.002 d8 h hn⟩

/-! ### C4: no-lookahead -/

/-- C4 (two-run statement): on two inputs with the same closes whose MACD and
signal series agree everywhere except possibly at period `t`, both
`Position[t]` and the net strategy return realized at period `t` coincide:
perturbing `MACD[t]`/`Signal[t]` never changes them. -/
theorem C4_noLookahead (d1 d2 : StockData) (c : ℚ) (t : ℕ)
    (hc : d1.closes = d2.closes)
    (hm : ∀ j, j ≠ t → d1.macd.getD j 0 = d2.macd.getD j 0)
    (hs : ∀ j, j ≠ t → d1.macd_signal.getD j 0 = d2.macd_signal.getD j 0) :
    positionAt d1 t = positionAt d2 t ∧
      strategyReturnsAt c d1 t = strategyReturnsAt c d2 t := by
  have htarget : ∀ j, j ≠ t → targetAt d1 j = targetAt d2 j := by
    intro j hj
    unfold targetAt
    rw [hm j hj, hs j hj]
  have hclose : ∀ j, closeAt d1 j = closeAt d2 j := by
    intro j; unfold closeAt; rw [hc]
  have hposition : ∀ u, u ≤ t → positionAt d1 u = positionAt d2 u := by
    intro u hu
    unfold positionAt
    by_cases h0 : u = 0
    · simp [h0]
    · simp only [h0, if_false]
      exact htarget (u - 1) (by omega)
  have h1 : returnsAt d1 t = returnsAt d2 t := by
    unfold returnsAt
    rw [hclose t, hclose (t - 1)]
  have h2 : positionAt d1 (t - 1) = positionAt d2 (t - 1) :=
    hposition (t - 1) (Nat.pred_le t)
  have h3 : positionAt d1 t = positionAt d2 t := hposition t le_rfl
  refine ⟨h3, ?_⟩
  unfold strategyReturnsAt rawStrategyReturnsAt commissionCostAt positionChangeAt
  rw [h1, h2, h3]

/-- Two inputs for the no-lookahead witness: same closes, MACD/signal
differing only at period 1. -/
def dA : StockData := ⟨[0, 1], [100, 110], [1, 5], [0, 0], [0, 0]⟩

/-- Companion input to `dA`, perturbed at period 1 only. -/
def dB : StockData := ⟨[0, 1], [100, 110], [1, -5], [0, 3], [0, 0]⟩

/-- Witness for C4: perturbing period 1's MACD and signal leaves
`Position[1]` and the period-1 net return unchanged. -/
theorem C4_noLookahead_witness :
    dA.closes = dB.closes ∧
      (targetAt dA 1 ≠ targetAt dB 1) ∧
      positionAt dA 1 = positionAt dB 1 ∧
      strategyReturnsAt 0.002 dA 1 = strategyReturnsAt 0.002 dB 1 := by
  have hm : ∀ j, j ≠ 1 → dA.macd.getD j 0 = dB.macd.getD j 0 := by
    intro j hj
    match j with
    | 0 => rfl
    | 1 => exact absurd rfl hj
    | k + 2 => rfl
  have hs : ∀ j, j ≠ 1 → dA.macd_signal.getD j 0 = dB.macd_signal.getD j 0 := by
    intro j hj
    match j with
    | 0 => rfl
    | 1 => exact absurd rfl hj
    | k + 2 => rfl
  obtain ⟨p1, p2⟩ := C4_noLookahead dA dB 0.002 1 rfl hm hs
  exact ⟨rfl, by decide, p1, p2⟩

/-! ### C5: the win-rate denominator -/

/-- Modelled from the spec's words, for comparison with the code's
`winRate`: the win rate computed after the first-period return has been
replaced by zero ("treated as zero, never as missing/NaN, before
aggregation"), so an undefined first period is in neither count. -/
def specWinRate (c : ℚ) (d : StockData) : ℚ :=
  let rs := (strategyReturnsList c d).map fillna0
  let w := rs.countP (fun x => decide (0 < x))
  let a := rs.countP (fun x => decide (x ≠ 0))
  if 0 < a then (w : ℚ) / (a : ℚ) * 100 else 0

/-- Counterexample to C5: on `d5` (two periods, one profitable long period)
the engine reports a win rate of 50 because the `NaN` first period is
counted in the nonzero-return denominator, while the claimed formula (first
period treated as zero) gives 100. -/
theorem C5_counterexample : winRate 0.002 d5 = 50 ∧ specWinRate 0.002 d5 = 100 := by
  have hsrl : strategyReturnsList 0.002 d5 = [none, some (49 / 500)] := by
    have hr : List.range (numPeriods d5) = [0, 1] := rfl
    rw [strategyReturnsList, hr]
    simp only [List.map_cons, List.map_nil]
    rw [show strategyReturnsAt 0.002 d5 1 =
        some (1 * ((110 : ℚ) / 100 - 1) - |(1 : ℚ) - 0| * 0.002) from rfl]
    norm_num
    rfl
  have hact : activeCount 0.002 d5 = 2 := by
    rw [activeCount, hsrl]
    norm_num [List.countP_cons]
  have hwin : winningCount 0.002 d5 = 1 := by
    rw [winningCount, hsrl]
    norm_num [List.countP_cons]
  constructor
  · rw [winRate, hact, hwin]
    norm_num
  · rw [specWinRate, hsrl]
    norm_num [List.countP_cons, fillna0]

/-- C5 amended: the reported win rate is
`count(NetStrategyReturn > 0) / count(NetStrategyReturn != 0) * 100`, but the
counts are taken on the raw series in which the first period is `NaN`:
`NaN != 0` holds, so the first period is always counted in the denominator
(which is therefore never zero for nonempty input) and never in the
numerator. -/
theorem C5_winRate_amended (c : ℚ) (d : StockData) (h : aligned d)
    (hn : 0 < numPeriods d) :
    strategyReturnsAt c d 0 = none ∧
    (∀ t, 1 ≤ t → strategyReturnsAt c d t ≠ none) ∧
    activeCount c d =
      1 + (List.range (numPeriods d - 1)).countP
        (fun i => !decide (strategyReturnsAt c d (i + 1) = some 0)) ∧
    winningCount c d =
      (List.range (numPeriods d - 1)).countP
        (fun i =>
          match strategyReturnsAt c d (i + 1) with
          | some x => decide (0 < x)
          | none => false) ∧
    0 < activeCount c d ∧
    winRate c d = (winningCount c d : ℚ) / (activeCount c d : ℚ) * 100 := by
  obtain ⟨m, hm⟩ : ∃ m, numPeriods d = m + 1 :=
    ⟨numPeriods d - 1, (Nat.succ_pred_eq_of_pos hn).symm⟩
  have hsome : ∀ t, 1 ≤ t → ∃ x, strategyReturnsAt c d t = some x := by
    intro t ht
    have h0 : t ≠ 0 := by omega
    simp [strategyReturnsAt, rawStrategyReturnsAt, commissionCostAt, positionChangeAt,
      returnsAt, h0]
  have h00 : strategyReturnsAt c d 0 = none := rfl
  have hm' : numPeriods d - 1 = m := by omega
  have hact : activeCount c d =
      1 + (List.range (numPeriods d - 1)).countP
        (fun i => !decide (strategyReturnsAt c d (i + 1) = some 0)) := by
    unfold activeCount strategyReturnsList
    rw [List.countP_map, hm, List.range_succ_eq_map, List.countP_cons, List.countP_map]
    simp only [Nat.add_sub_cancel]
    have hcong : (List.range m).countP
        (((fun o =>
            match o with
            | some x => decide (x ≠ 0)
            | none => true) ∘ strategyReturnsAt c d) ∘ Nat.succ) =
        (List.range m).countP (fun i => !decide (strategyReturnsAt c d (i + 1) = some 0)) := by
      refine List.countP_congr ?_
      intro i _
      obtain ⟨x, hx⟩ := hsome (i + 1) (by omega)
      have hbool : (match strategyReturnsAt c d (i + 1) with
          | some x => decide (x ≠ 0)
          | none => true) = !decide (strategyReturnsAt c d (i + 1) = some 0) := by
        rw [hx]
        simp [decide_not]
      show (match strategyReturnsAt c d (i + 1) with
          | some x => decide (x ≠ 0)
          | none => true) = true ↔ _
      rw [hbool]
    rw [hcong]
    simp only [Function.comp_apply, h00]
    simp [Nat.add_comm]
  have hwin : winningCount c d =
      (List.range (numPeriods d - 1)).countP
        (fun i =>
          match strategyReturnsAt c d (i + 1) with
          | some x => decide (0 < x)
          | none => false) := by
    unfold winningCount strategyReturnsList
    rw [List.countP_map, hm, List.range_succ_eq_map, List.countP_cons, List.countP_map]
    simp only [Nat.add_sub_cancel, Function.comp_apply, h00]
    simp
    rfl
  have hpos : 0 < activeCount c d := by rw [hact]; omega
  refine ⟨rfl, ?_, hact, hwin, hpos, ?_⟩
  · intro t ht
    obtain ⟨x, hx⟩ := hsome t ht
    rw [hx]; simp
  · rw [winRate, if_pos hpos]

/-- Witness for the amended C5 at the concrete input `d5`. -/
theorem C5_winRate_amended_witness :
    aligned d5 ∧ 0 < numPeriods d5 ∧ strategyReturnsAt 0.002 d5 0 = none ∧
      0 < activeCount 0.002 d5 ∧
      winRate 0.002 d5 = (winningCount 0.002 d5 : ℚ) / (activeCount 0.002 d5 : ℚ) * 100 := by
  have h : aligned d5 := ⟨rfl, rfl, rfl⟩
  have hn : 0 < numPeriods d5 := by decide
  obtain ⟨p1, _, _, _, p5, p6⟩ := C5_winRate_amended 0.002 d5 h hn
  exact ⟨h, hn, p1, p5, p6⟩

/-! ### C6: error signalling -/

/-- Counterexample to C6: the engine does not raise the dedicated error kinds
named by the spec.  The misaligned input `d6` fails with the pandas
length-mismatch `ValueError` (not `InvalidInputError`), and the empty input
`d6e` fails with an `IndexError` at `equity_curve[-1]` (not
`InsufficientDataError`). -/
theorem C6_counterexample :
    run_backtest d6 = Except.error EngineError.valueError ∧
    run_backtest d6 ≠ Except.error EngineError.invalidInputError ∧
    run_backtest d6e = Except.error EngineError.indexError ∧
    run_backtest d6e ≠ Except.error EngineError.insufficientDataError := by
  have h1 : run_backtest d6 = Except.error EngineError.valueError := by
    rw [run_backtest, if_neg (by intro hc; exact absurd hc.1 (by decide))]
  have h2 : run_backtest d6e = Except.error EngineError.indexError := by
    rw [run_backtest, if_pos ⟨rfl, rfl, rfl⟩, if_pos (show numPeriods d6e = 0 from rfl)]
  refine ⟨h1, ?_, h2, ?_⟩
  · rw [h1]; intro hc; injection hc with hc'; cases hc'
  · rw [h2]; intro hc; injection hc with hc'; cases hc'

/-- C6 amended: a misaligned input makes the run fail with the (incidental)
pandas `ValueError`, an empty input with an `IndexError`; in both cases an
error and no partial result reaches the caller, and these are the only two
failure modes — no dedicated `InvalidInputError`/`InsufficientDataError`
exists in the code. -/
theorem C6_errors_amended (d : StockData) :
    (¬ aligned d → run_backtest d = Except.error EngineError.valueError) ∧
    (aligned d → numPeriods d = 0 → run_backtest d = Except.error EngineError.indexError) ∧
    (∀ e, run_backtest d = Except.error e →
      e = EngineError.valueError ∨ e = EngineError.indexError) := by
  refine ⟨?_, ?_, ?_⟩
  · intro hna; rw [run_backtest, if_neg hna]
  · intro ha h0; rw [run_backtest, if_pos ha, if_pos h0]
  · intro e he
    rw [run_backtest] at he
    by_cases ha : aligned d
    · rw [if_pos ha] at he
      by_cases h0 : numPeriods d = 0
      · rw [if_pos h0] at he
        injection he with he'
        right; exact he'.symm
      · rw [if_neg h0] at he
        exact Except.noConfusion he
    · rw [if_neg ha] at he
      injection he with he'
      left; exact he'.symm

/-- Witness for the amended C6 at the misaligned input `d6` and the empty
input `d6e`. -/
theorem C6_errors_amended_witness :
    ¬ aligned d6 ∧ run_backtest d6 = Except.error EngineError.valueError ∧
      aligned d6e ∧ numPeriods d6e = 0 ∧
      run_backtest d6e = Except.error EngineError.indexError := by
  have h1 : ¬ aligned d6 := by intro hc; exact absurd hc.1 (by decide)
  have h2 : aligned d6e := ⟨rfl, rfl, rfl⟩
  have h3 : numPeriods d6e = 0 := rfl
  exact ⟨h1, (C6_errors_amended d6).1 h1, h2, h3, (C6_errors_amended d6e).2.1 h2 h3⟩

/-! ### C7: drawdown -/

lemma le_foldl_max : ∀ (l : List ℚ) (b : ℚ), b ≤ l.foldl max b
  | [], b => le_refl b
  | x :: l, b => le_trans (le_max_left b x) (le_foldl_max l (max b x))

lemma mem_le_foldl_max : ∀ (l : List ℚ) (b x : ℚ), x ∈ l → x ≤ l.foldl max b
  | [], _, _, hx => absurd hx (List.not_mem_nil _)
  | y :: l, b, x, hx => by
    rcases List.mem_cons.mp hx with rfl | h'
    · exact le_trans (le_max_right b x) (le_foldl_max l (max b x))
    · exact mem_le_foldl_max l (max b y) x h'

lemma foldl_max_mem : ∀ (l : List ℚ) (b : ℚ), l.foldl max b = b ∨ l.foldl max b ∈ l
  | [], _ => Or.inl rfl
  | x :: l, b => by
    rcases foldl_max_mem l (max b x) with h | h
    · rcases max_choice b x with h' | h'
      · left; show l.foldl max (max b x) = b; rw [h, h']
      · right; show l.foldl max (max b x) ∈ x :: l; rw [h, h']
        exact List.mem_cons_self x l
    · right; exact List.mem_cons_of_mem x h

lemma foldl_min_le : ∀ (l : List ℚ) (b : ℚ), l.foldl min b ≤ b
  | [], b => le_refl b
  | x :: l, b => le_trans (foldl_min_le l (min b x)) (min_le_left b x)

lemma foldl_min_le_mem : ∀ (l : List ℚ) (b x : ℚ), x ∈ l → l.foldl min b ≤ x
  | [], _, _, hx => absurd hx (List.not_mem_nil _)
  | y :: l, b, x, hx => by
    rcases List.mem_cons.mp hx with rfl | h'
    · exact le_trans (foldl_min_le l (min b x)) (min_le_right b x)
    · exact foldl_min_le_mem l (min b y) x h'

lemma foldl_min_mem : ∀ (l : List ℚ) (b : ℚ), l.foldl min b = b ∨ l.foldl min b ∈ l
  | [], _ => Or.inl rfl
  | x :: l, b => by
    rcases foldl_min_mem l (min b x) with h | h
    · rcases min_choice b x with h' | h'
      · left; show l.foldl min (min b x) = b; rw [h, h']
      · right; show l.foldl min (min b x) ∈ x :: l; rw [h, h']
        exact List.mem_cons_self x l
    · right; exact List.mem_cons_of_mem x h

lemma listMin_mem : ∀ (l : List ℚ), l ≠ [] → listMin l ∈ l
  | [], h => absurd rfl h
  | x :: l, _ => by
    rcases foldl_min_mem l x with h | h
    · rw [listMin, h]; exact List.mem_cons_self x l
    · rw [listMin]; exact List.mem_cons_of_mem x h

lemma listMin_le : ∀ (l : List ℚ) (x : ℚ), x ∈ l → listMin l ≤ x
  | [], x, hx => absurd hx (List.not_mem_nil x)
  | y :: l, x, hx => by
    rcases List.mem_cons.mp hx with rfl | h'
    · exact foldl_min_le l x
    · exact foldl_min_le_mem l y x h'

lemma length_expandingMax : ∀ (xs : List ℚ), (expandingMax xs).length = xs.length
  | [] => rfl
  | x :: xs => by simp [expandingMax, List.length_scanl]

lemma length_peakList (cap c : ℚ) (d : StockData) :
    (peakList cap c d).length = numPeriods d := by
  rw [peakList, length_expandingMax, length_equityCurve]

lemma length_drawdownCurve (cap c : ℚ) (d : StockData) :
    (drawdownCurve cap c d).length = numPeriods d := by
  rw [drawdownCurve, List.length_zipWith, length_equityCurve, length_peakList, min_self]

lemma scanl_max_getD :
    ∀ (xs : List ℚ) (b : ℚ) (t : ℕ), t ≤ xs.length →
      (List.scanl max b xs).getD t 0 = (xs.take t).foldl max b
  | [], _, 0, _ => by simp
  | [], _, t + 1, h => by simp at h
  | x :: xs, b, 0, _ => by simp
  | x :: xs, b, t + 1, h => by
    rw [List.scanl_cons]
    have hstep : ([b] ++ List.scanl max (max b x) xs).getD (t + 1) 0 =
        (List.scanl max (max b x) xs).getD t 0 := rfl
    rw [hstep, scanl_max_getD xs (max b x) t (by simpa using h)]
    rfl

lemma expandingMax_getD (xs : List ℚ) {t : ℕ} (h : t < xs.length) :
    (∀ i, i ≤ t → xs.getD i 0 ≤ (expandingMax xs).getD t 0) ∧
      (∃ i, i ≤ t ∧ (expandingMax xs).getD t 0 = xs.getD i 0) := by
  cases xs with
  | nil => simp at h
  | cons x rest =>
    have ht : t ≤ rest.length := Nat.lt_succ_iff.mp (by simpa using h)
    have hval : (expandingMax (x :: rest)).getD t 0 = (rest.take t).foldl max x :=
      scanl_max_getD rest x t ht
    constructor
    · intro i hi
      match i with
      | 0 =>
        rw [hval]
        exact le_foldl_max (rest.take t) x
      | j + 1 =>
        have hj : j < rest.length := by omega
        have hjt : j < t := by omega
        have hjtake : j < (rest.take t).length := by
          rw [List.length_take]; omega
        have hmem : rest.getD j 0 ∈ rest.take t := by
          rw [List.getD_eq_getElem rest 0 hj, ← List.getElem_take rest]
          · exact List.getElem_mem hjtake
        rw [hval]
        show (x :: rest).getD (j + 1) 0 ≤ _
        rw [List.getD_cons_succ]
        exact mem_le_foldl_max (rest.take t) x _ hmem
    · rcases foldl_max_mem (rest.take t) x with h' | h'
      · exact ⟨0, Nat.zero_le t, by rw [hval, h']; rfl⟩
      · obtain ⟨j, hj, hjv⟩ := List.getElem_of_mem h'
        have hjlen : j < (rest.take t).length := hj
        have hjt : j < t := by
          have := hjlen; rw [List.length_take] at this; omega
        have hjr : j < rest.length := by
          have := hjlen; rw [List.length_take] at this; omega
        refine ⟨j + 1, by omega, ?_⟩
        rw [hval, ← hjv, List.getElem_take rest, List.getD_cons_succ,
          List.getD_eq_getElem rest 0 hjr]

lemma getD_zipWith (f : ℚ → ℚ → ℚ) (xs ys : List ℚ) (t : ℕ)
    (hx : t < xs.length) (hy : t < ys.length) :
    (List.zipWith f xs ys).getD t 0 = f (xs.getD t 0) (ys.getD t 0) := by
  have hlen : t < (List.zipWith f xs ys).length := by
    rw [List.length_zipWith]; exact lt_min hx hy
  rw [List.getD_eq_getElem _ _ hlen, List.getElem_zipWith,
    List.getD_eq_getElem _ _ hx, List.getD_eq_getElem _ _ hy]

lemma equityCurve_getD_zero (cap c : ℚ) (d : StockData) (hn : 0 < numPeriods d) :
    (equityCurve cap c d).getD 0 0 = cap := by
  rw [equityCurve_getD cap c d hn, Finset.prod_range_one,
    show fillna0 (strategyReturnsAt c d 0) = 0 from rfl]
  ring

/-- Counterexample to C7: the reported drawdown curve is expressed in
percent, `(Equity/Peak - 1) * 100`, so on `d7` (price halves while long) the
reported period-1 drawdown is `-50.2`, not `Equity[1]/Peak[1] - 1 = -0.502`. -/
theorem C7_counterexample :
    (drawdownCurve 1000000 0.002 d7).getD 1 0 ≠
      (equityCurve 1000000 0.002 d7).getD 1 0 /
        (peakList 1000000 0.002 d7).getD 1 0 - 1 := by
  have hsr : strategyReturnsList 0.002 d7 = [none, some (-(251 / 500))] := by
    have hr : List.range (numPeriods d7) = [0, 1] := rfl
    rw [strategyReturnsList, hr]
    simp only [List.map_cons, List.map_nil]
    rw [show strategyReturnsAt 0.002 d7 1 =
        some (1 * ((50 : ℚ) / 100 - 1) - |(1 : ℚ) - 0| * 0.002) from rfl]
    norm_num
    rfl
  have he : equityCurve 1000000 0.002 d7 = [1000000, 498000] := by
    rw [equityCurve, hsr]
    simp [cumprod, List.scanl, fillna0]
    norm_num
  have hp : peakList 1000000 0.002 d7 = [1000000, 1000000] := by
    rw [peakList, he]
    simp [expandingMax, List.scanl]
    norm_num
  have hd : drawdownCurve 1000000 0.002 d7 = [0, -(251 / 5)] := by
    rw [drawdownCurve, he, hp]
    simp [List.zipWith]
    norm_num
  rw [hd, he, hp]
  show (-(251 / 5) : ℚ) ≠ (498000 : ℚ) / 1000000 - 1
  norm_num

/-- C7 amended: the reported drawdown curve satisfies
`Drawdown[t] = (Equity[t]/Peak[t] - 1) * 100` (percent) with
`Peak[t] = max(Equity[0..t])`; `Drawdown[t] ≤ 0` always, `Drawdown[t] = 0`
whenever `Equity[t]` is a running maximum, and `MaxDrawdown` is the minimum
of the drawdown curve. -/
theorem C7_drawdown_amended (d : StockData) (h : aligned d) (hn : 0 < numPeriods d) :
    (∀ t, t < numPeriods d →
      (drawdownCurve 1000000 0.002 d).getD t 0 =
        ((equityCurve 1000000 0.002 d).getD t 0 /
            (peakList 1000000 0.002 d).getD t 0 - 1) * 100 ∧
      (∀ i, i ≤ t →
        (equityCurve 1000000 0.002 d).getD i 0 ≤ (peakList 1000000 0.002 d).getD t 0) ∧
      (∃ i, i ≤ t ∧
        (peakList 1000000 0.002 d).getD t 0 = (equityCurve 1000000 0.002 d).getD i 0) ∧
      (drawdownCurve 1000000 0.002 d).getD t 0 ≤ 0 ∧
      ((∀ i, i ≤ t →
          (equityCurve 1000000 0.002 d).getD i 0 ≤ (equityCurve 1000000 0.002 d).getD t 0) →
        (drawdownCurve 1000000 0.002 d).getD t 0 = 0)) ∧
    (∃ t, t < numPeriods d ∧
      maxDrawdown 1000000 0.002 d = (drawdownCurve 1000000 0.002 d).getD t 0) ∧
    (∀ t, t < numPeriods d →
      maxDrawdown 1000000 0.002 d ≤ (drawdownCurve 1000000 0.002 d).getD t 0) := by
  have hle : (equityCurve 1000000 0.002 d).length = numPeriods d :=
    length_equityCurve 1000000 0.002 d
  have hlp : (peakList 1000000 0.002 d).length = numPeriods d :=
    length_peakList 1000000 0.002 d
  have hld : (drawdownCurve 1000000 0.002 d).length = numPeriods d :=
    length_drawdownCurve 1000000 0.002 d
  have he0 : (equityCurve 1000000 0.002 d).getD 0 0 = 1000000 :=
    equityCurve_getD_zero 1000000 0.002 d hn
  refine ⟨?_, ?_, ?_⟩
  · intro t ht
    obtain ⟨hub, i0, hi0, hpeq⟩ :=
      expandingMax_getD (equityCurve 1000000 0.002 d) (show t < _ by rw [hle]; exact ht)
    have hub' : ∀ i, i ≤ t →
        (equityCurve 1000000 0.002 d).getD i 0 ≤ (peakList 1000000 0.002 d).getD t 0 := hub
    have hpeq' : (peakList 1000000 0.002 d).getD t 0 =
        (equityCurve 1000000 0.002 d).getD i0 0 := hpeq
    have hpeak_ge : (1000000 : ℚ) ≤ (peakList 1000000 0.002 d).getD t 0 := by
      have hx := hub' 0 (Nat.zero_le t)
      rw [he0] at hx
      exact hx
    have hpeak_pos : (0 : ℚ) < (peakList 1000000 0.002 d).getD t 0 :=
      lt_of_lt_of_le (by norm_num) hpeak_ge
    have het : (equityCurve 1000000 0.002 d).getD t 0 ≤ (peakList 1000000 0.002 d).getD t 0 :=
      hub' t le_rfl
    have hdd : (drawdownCurve 1000000 0.002 d).getD t 0 =
        ((equityCurve 1000000 0.002 d).getD t 0 /
          (peakList 1000000 0.002 d).getD t 0 - 1) * 100 := by
      rw [drawdownCurve]
      exact getD_zipWith _ _ _ t (by rw [hle]; exact ht) (by rw [hlp]; exact ht)
    refine ⟨hdd, hub', ⟨i0, hi0, hpeq'⟩, ?_, ?_⟩
    · rw [hdd]
      have h1 : (equityCurve 1000000 0.002 d).getD t 0 /
          (peakList 1000000 0.002 d).getD t 0 ≤ 1 := (div_le_one hpeak_pos).mpr het
      linarith
    · intro hrm
      have hple : (peakList 1000000 0.002 d).getD t 0 ≤
          (equityCurve 1000000 0.002 d).getD t 0 := hpeq' ▸ hrm i0 hi0
      have hpe : (peakList 1000000 0.002 d).getD t 0 =
          (equityCurve 1000000 0.002 d).getD t 0 := le_antisymm hple het
      have hne : (peakList 1000000 0.002 d).getD t 0 ≠ 0 := ne_of_gt hpeak_pos
      rw [hdd, ← hpe, div_self hne]
      ring
  · have hdne : drawdownCurve 1000000 0.002 d ≠ [] := by
      rw [← List.length_pos, hld]; exact hn
    obtain ⟨t0, ht0, hveq⟩ := List.getElem_of_mem (listMin_mem _ hdne)
    refine ⟨t0, by rw [← hld]; exact ht0, ?_⟩
    rw [maxDrawdown, List.getD_eq_getElem _ _ ht0, hveq]
  · intro t ht
    have htl : t < (drawdownCurve 1000000 0.002 d).length := by rw [hld]; exact ht
    rw [maxDrawdown, List.getD_eq_getElem _ _ htl]
    exact listMin_le _ _ (List.getElem_mem htl)

/-- Witness for the amended C7 at the concrete input `d7`. -/
theorem C7_drawdown_amended_witness :
    aligned d7 ∧ 0 < numPeriods d7 ∧
      (∀ t, t < numPeriods d7 →
        (drawdownCurve 1000000 0.002 d7).getD t 0 ≤ 0) ∧
      (∀ t, t < numPeriods d7 →
        maxDrawdown 1000000 0.002 d7 ≤ (drawdownCurve 1000000 0.002 d7).getD t 0) := by
  have h : aligned d7 := ⟨rfl, rfl, rfl⟩
  have hn : 0 < numPeriods d7 := by decide
  obtain ⟨p1, _, p3⟩ := C7_drawdown_amended d7 h hn
  exact ⟨h, hn, fun t ht => (p1 t ht).2.2.2.1, p3⟩

/-! ### C8: the worked scenario -/

/-- Counterexample to the final clause of C8: at the scenario input the net
strategy return at index 3 is exactly 0 (the close is flat 110 to 110), the
commission cell at index 0 is `NaN` and at index 3 it is 0 — the commission
for the two `Target` toggles is charged at indices 1 and 4 (one period after
the toggles at 0 and 3), so the nonzero-return periods are 1, 2 and 4, not
2 and 3. -/
theorem C8_counterexample :
    strategyReturnsAt 0.002 d8 3 = some 0 ∧
    commissionCostAt 0.002 d8 0 = none ∧
    commissionCostAt 0.002 d8 3 = some 0 ∧
    commissionCostAt 0.002 d8 1 = some 0.002 ∧
    commissionCostAt 0.002 d8 4 = some 0.002 := by
  refine ⟨?_, rfl, ?_, ?_, ?_⟩
  · rw [show strategyReturnsAt 0.002 d8 3 =
        some (1 * ((110 : ℚ) / 110 - 1) - |(1 : ℚ) - 1| * 0.002) from rfl]
    norm_num
  · rw [show commissionCostAt 0.002 d8 3 = some (|(1 : ℚ) - 1| * 0.002) from rfl]
    norm_num
  · rw [show commissionCostAt 0.002 d8 1 = some (|(1 : ℚ) - 0| * 0.002) from rfl]
    norm_num
  · rw [show commissionCostAt 0.002 d8 4 = some (|(0 : ℚ) - 1| * 0.002) from rfl]
    norm_num

/-- C8 amended: on the scenario input `Target = [1,1,1,0,0]`,
`Position = [0,1,1,1,0]`, the ledger holds exactly one LONG trade entered at
index 0 (price 100) and closed at index 3 (price 110) with `PL = 9.6`,
`PL% = 9.6` and duration 3; the net returns are
`[NaN, -0.002, 0.1, 0, -0.002]` (commission realized at indices 1 and 4, the
only nonzero raw price return at index 2), and the final equity is
`1000000 * 0.998 * 1.1 * 0.998 = 1095604.4`. -/
theorem C8_scenario_amended :
    targetList d8 = [1, 1, 1, 0, 0] ∧
    positionList d8 = [0, 1, 1, 1, 0] ∧
    tradesOf 0.002 d8 =
      [{ entryIdx := 0, exitIdx := 3, entry_price := 100, exit_price := 110,
         profit_loss := 9.6, profit_loss_pct := 9.6, duration_days := 3,
         trade_type := "LONG" }] ∧
    strategyReturnsList 0.002 d8 =
      [none, some (-0.002), some 0.1, some 0, some (-0.002)] ∧
    finalEquity 1000000 0.002 d8 = 1095604.4 := by
  have h1 : strategyReturnsAt 0.002 d8 1 = some (-0.002) := by
    rw [show strategyReturnsAt 0.002 d8 1 =
        some (1 * ((100 : ℚ) / 100 - 1) - |(1 : ℚ) - 0| * 0.002) from rfl]
    norm_num
  have h2 : strategyReturnsAt 0.002 d8 2 = some 0.1 := by
    rw [show strategyReturnsAt 0.002 d8 2 =
        some (1 * ((110 : ℚ) / 100 - 1) - |(1 : ℚ) - 1| * 0.002) from rfl]
    norm_num
  have h3 : strategyReturnsAt 0.002 d8 3 = some 0 := by
    rw [show strategyReturnsAt 0.002 d8 3 =
        some (1 * ((110 : ℚ) / 110 - 1) - |(1 : ℚ) - 1| * 0.002) from rfl]
    norm_num
  have h4 : strategyReturnsAt 0.002 d8 4 = some (-0.002) := by
    rw [show strategyReturnsAt 0.002 d8 4 =
        some (0 * ((90 : ℚ) / 110 - 1) - |(0 : ℚ) - 1| * 0.002) from rfl]
    norm_num
  have hsr : strategyReturnsList 0.002 d8 =
      [none, some (-0.002), some 0.1, some 0, some (-0.002)] := by
    have hr : List.range (numPeriods d8) = [0, 1, 2, 3, 4] := rfl
    rw [strategyReturnsList, hr]
    simp only [List.map_cons, List.map_nil, h1, h2, h3, h4]
    rfl
  have htr : tradesOf 0.002 d8 = [mkTrade 0.002 0 3 100 110] := rfl
  have htrade : mkTrade 0.002 0 3 (100 : ℚ) 110 =
      { entryIdx := 0, exitIdx := 3, entry_price := 100, exit_price := 110,
        profit_loss := 9.6, profit_loss_pct := 9.6, duration_days := 3,
        trade_type := "LONG" } := by
    rw [mkTrade]
    norm_num
  have heq : finalEquity 1000000 0.002 d8 = 1095604.4 := by
    rw [finalEquity, equityCurve, hsr]
    simp [cumprod, List.scanl, fillna0, List.getLastD]
    norm_num
  exact ⟨rfl, rfl, by rw [htr, htrade], hsr, heq⟩

/-! ### C9: always-long benchmark equivalence -/

/-- Counterexample to C9: on the always-long input `d9` (the position is 1 at
every period where it can be), the entry commission is realized at period 1,
not period 0 — so the net strategy return at period 1 differs from the
period return, contradicting "no further commission at any later period". -/
theorem C9_counterexample :
    (∀ t, 1 ≤ t → t < numPeriods d9 → positionAt d9 t = 1) ∧
      strategyReturnsAt 0.002 d9 1 ≠ returnsAt d9 1 := by
  constructor
  · intro t h1 h2
    have h2' : t < 3 := h2
    interval_cases t <;> rfl
  · rw [show strategyReturnsAt 0.002 d9 1 =
        some (1 * ((110 : ℚ) / 100 - 1) - |(1 : ℚ) - 0| * 0.002) from rfl,
      show returnsAt d9 1 = some ((110 : ℚ) / 100 - 1) from rfl]
    intro hc
    injection hc with hc'
    norm_num at hc'

/-- C9 amended: for an input that is long at every period `t ≥ 1`
(`Position[0] = 0` always), the single entry commission is subtracted at
`t = 1` — one period after the `t = 0` entry signal — and at every later
period the net strategy return equals the period return with zero
commission; period 0 is undefined (`NaN`) in both series. -/
theorem C9_benchmark_amended (c : ℚ) (d : StockData) (h : aligned d)
    (hlong : ∀ t, 1 ≤ t → t < numPeriods d → positionAt d t = 1) :
    (1 < numPeriods d →
      strategyReturnsAt c d 1 = (returnsAt d 1).map (fun r => r - c) ∧
      commissionCostAt c d 1 = some c) ∧
    (∀ t, 2 ≤ t → t < numPeriods d →
      strategyReturnsAt c d t = returnsAt d t ∧ commissionCostAt c d t = some 0) ∧
    strategyReturnsAt c d 0 = none ∧ returnsAt d 0 = none := by
  refine ⟨?_, ?_, rfl, rfl⟩
  · intro h1
    have hp1 : positionAt d 1 = 1 := hlong 1 le_rfl h1
    have hp0 : positionAt d 0 = 0 := rfl
    constructor
    · simp only [strategyReturnsAt, rawStrategyReturnsAt, commissionCostAt,
        positionChangeAt, returnsAt]
      norm_num [hp1, hp0]
    · simp only [commissionCostAt, positionChangeAt]
      norm_num [hp1, hp0]
  · intro t h2 hlt
    have hp : positionAt d t = 1 := hlong t (by omega) hlt
    have hp' : positionAt d (t - 1) = 1 := hlong (t - 1) (by omega) (by omega)
    have ht0 : t ≠ 0 := by omega
    constructor
    · simp only [strategyReturnsAt, rawStrategyReturnsAt, commissionCostAt,
        positionChangeAt, returnsAt, ht0]
      norm_num [hp, hp']
    · simp only [commissionCostAt, positionChangeAt, ht0]
      norm_num [hp, hp']

/-- Witness for the amended C9 at the always-long input `d9`. -/
theorem C9_benchmark_amended_witness :
    aligned d9 ∧ (∀ t, 1 ≤ t → t < numPeriods d9 → positionAt d9 t = 1) ∧
      1 < numPeriods d9 ∧ 2 < numPeriods d9 ∧
      strategyReturnsAt 0.002 d9 1 = (returnsAt d9 1).map (fun r => r - 0.002) ∧
      commissionCostAt 0.002 d9 1 = some 0.002 ∧
      strategyReturnsAt 0.002 d9 2 = returnsAt d9 2 ∧
      commissionCostAt 0.002 d9 2 = some 0 := by
  have h : aligned d9 := ⟨rfl, rfl, rfl⟩
  have hlong : ∀ t, 1 ≤ t → t < numPeriods d9 → positionAt d9 t = 1 := by
    intro t h1 h2
    have h2' : t < 3 := h2
    interval_cases t <;> rfl
  obtain ⟨p1, p2, _, _⟩ := C9_benchmark_amended 0.002 d9 h hlong
  obtain ⟨q1, q2⟩ := p1 (by decide)
  obtain ⟨r1, r2⟩ := p2 2 le_rfl (by decide)
  exact ⟨h, hlong, by decide, by decide, q1, q2, r1, r2⟩

/-! ### C10: the fixed internal configuration -/

/-- C10: every successful run returns the engine's fixed configuration —
strategy name "MLStrategy", initial capital 1000000, commission 0.002,
trade-on-close, "Long-only" — and the echoed initial capital; the engine's
only input is the data, so no caller-supplied capital or commission exists. -/
theorem C10_fixedConfig (d : StockData) (o : BacktestMetrics)
    (h : run_backtest d = Except.ok o) :
    o.config = ⟨"MLStrategy", 1000000, 0.002, true, "Long-only"⟩ ∧
      o.initial_capital = 1000000 := by
  rw [run_backtest] at h
  by_cases ha : aligned d
  · rw [if_pos ha] at h
    by_cases h0 : numPeriods d = 0
    · rw [if_pos h0] at h
      exact Except.noConfusion h
    · rw [if_neg h0] at h
      injection h with h'
      rw [← h']
      exact ⟨rfl, rfl⟩
  · rw [if_neg ha] at h
    exact Except.noConfusion h

/-- Witness for C10 at the one-period input `d10`. -/
theorem C10_fixedConfig_witness :
    ∃ o, run_backtest d10 = Except.ok o ∧
      o.config = ⟨"MLStrategy", 1000000, 0.002, true, "Long-only"⟩ ∧
      o.initial_capital = 1000000 := by
  have hok : run_backtest d10 = Except.ok
      { config := ⟨"MLStrategy", 1000000, 0.002, true, "Long-only"⟩
        initial_capital := 1000000
        final_equity := finalEquity 1000000 0.002 d10
        total_trades := (tradesOf 0.002 d10).length
        win_rate := winRate 0.002 d10
        max_drawdown := maxDrawdown 1000000 0.002 d10
        equity_curve := equityCurve 1000000 0.002 d10
        drawdown_curve := drawdownCurve 1000000 0.002 d10
        returns := (strategyReturnsList 0.002 d10).map fillna0
        trades := tradesOf 0.002 d10 } := by
    rw [run_backtest, if_pos ⟨rfl, rfl, rfl⟩,
      if_neg (show ¬numPeriods d10 = 0 by decide)]
  exact ⟨_, hok, C10_fixedConfig d10 _ hok⟩
